import Mathlib

/-!
Shallow embedding of `src/gbd.js` (Google Books downloader userscript) and
verification of the specification's claims about it.

The script is a single async IIFE.  Its parts, each embedded below:
* `getFilenamePrefix` — DOM title lookup with a `'Book'` fallback (the fallback
  path calls `Logger.warn`, and `const Logger` is declared only *after* the
  `CONFIG` object whose initializer calls `getFilenamePrefix`);
* `ApiService.getPageManifest` / `ApiService.getPageBatch` — JSON endpoint
  parsing with thrown errors (the spec's `DiscoveryError`);
* the URL-resolution loop in `main` (skip-if-present, merge batch into
  `signedUrlMap` via `Map.set`);
* the `downloadJobs` construction (zero-padded filenames);
* the sequential download loop with per-job `try/catch`;
* the surrounding `try/catch` of `main` (abort on discovery failure).

JavaScript `Map` objects are embedded as insertion-ordered association lists
(`UrlMap`), with `mapGet`/`hasKey`/`mapSet` mirroring `Map.get`/`Map.has`/
`Map.set`.  JS string truthiness (`if (page.src && page.pid)`, `if (!url)`) is
embedded by `jsTruthy` on `Option String`: absent (`undefined`) and the empty
string are falsy.  Fallible code returns `Except String`.
-/

namespace GBD

/-- A page descriptor as consumed from the provider's JSON: only the `pid`
and `src` fields are read by the script; either may be absent. -/
structure PageDesc where
  pid : Option String
  src : Option String
deriving DecidableEq, Repr

/-- An HTTP JSON response as observed by the script: `ok` is
`response.ok`, and `page` is the (possibly absent) `data?.page` list. -/
structure ApiResponse where
  ok : Bool
  page : Option (List PageDesc)
deriving DecidableEq, Repr

/-- Embedding of a JS `Map` from page ids to URLs: an insertion-ordered
association list with unique keys maintained by `mapSet`. -/
abbrev UrlMap := List (String × String)

/-- Embedding of `Map.get`: the value at the first (unique) occurrence of the key. -/
def mapGet : UrlMap → String → Option String
  | [], _ => none
  | (k, v) :: t, key => if k = key then some v else mapGet t key

/-- Embedding of `Map.has`. -/
def hasKey (m : UrlMap) (k : String) : Bool :=
  (mapGet m k).isSome

/-- Embedding of `Map.set`: overwrites the value if the key is present (keeping its
position), otherwise appends the new binding. -/
def mapSet : UrlMap → String → String → UrlMap
  | [], k, v => [(k, v)]
  | (k', v') :: t, k, v =>
    if k' = k then (k', v) :: t else (k', v') :: mapSet t k v

/-- JS truthiness of a string-valued field: `undefined` and `""` are falsy. -/
def jsTruthy : Option String → Bool
  | none => false
  | some s => s != ""

/-- Embedding of `ApiService.getPageManifest` (src/gbd.js lines 45-53), applied to the
response it observes: errors on non-OK status, on an absent page list and on
an empty page list; otherwise returns `data.page.map(p => p.pid)`. -/
def getPageManifest (resp : ApiResponse) : Except String (List (Option String)) :=
  if !resp.ok then .error "Failed to fetch page manifest"
  else
    match resp.page with
    | none => .error "Could not parse the list of page IDs from the API response."
    | some ps =>
      if ps.isEmpty then .error "Could not parse the list of page IDs from the API response."
      else .ok (ps.map (fun p => p.pid))

/-- One iteration of the `for (const page of pageData)` loop of
`ApiService.getPageBatch`: `if (page.src && page.pid) urlMap.set(page.pid, page.src)`. -/
def addBatchEntry (m : UrlMap) (p : PageDesc) : UrlMap :=
  if jsTruthy p.src && jsTruthy p.pid then mapSet m (p.pid.getD "") (p.src.getD "") else m

/-- Embedding of `ApiService.getPageBatch` (src/gbd.js lines 54-66), applied to the
response it observes: errors on non-OK status and on an absent page list
(`if (!pageData) throw` — an empty array is truthy in JS, so an
empty-but-present list is not an error); otherwise folds the entries into a
fresh map, skipping entries whose `src` or `pid` is falsy. -/
def getPageBatch (resp : ApiResponse) : Except String UrlMap :=
  if !resp.ok then .error "Failed to fetch page batch"
  else
    match resp.page with
    | none => .error "Invalid API response"
    | some ps => .ok (ps.foldl addBatchEntry [])

/-- The mapping described by the spec for a batch response: entries whose
identifier or source-URL field is missing (or falsy) are ignored, the rest
are inserted in order. -/
def urlMapOfBatch (ps : List PageDesc) : UrlMap :=
  (ps.filter (fun p => jsTruthy p.src && jsTruthy p.pid)).foldl
    (fun m p => mapSet m (p.pid.getD "") (p.src.getD "")) []

/-- Fuel-driven big-endian decimal digits of a positive `n` (structural on
the fuel, so the kernel can evaluate it on concrete inputs). -/
def digitsBEAux : Nat → Nat → List Nat
  | 0, _ => []
  | fuel + 1, n => if n = 0 then [] else digitsBEAux fuel (n / 10) ++ [n % 10]

/-- Big-endian decimal digit values of `n`: the digits of JS `String(n)`. -/
def digitsBE (n : Nat) : List Nat :=
  if n = 0 then [0] else digitsBEAux n n

/-- Embedding of JS `String(n)` for a natural number `n`. -/
def natToString (n : Nat) : String :=
  ⟨(digitsBE n).map Nat.digitChar⟩

/-- Embedding of JS `String.prototype.padStart(w, c)` for a one-character
pad: left-pad to length `w` (unchanged when already at least that long,
since the `replicate` count is then `0`). -/
def padStart (s : String) (w : Nat) (c : Char) : String :=
  ⟨List.replicate (w - s.data.length) c ++ s.data⟩

/-- A retrieval job as built by `main`: `{ url, filename }`. -/
structure Job where
  url : String
  filename : String
deriving DecidableEq, Repr, Inhabited

/-- The filename for 1-based position `i` in a manifest of length `n`:
`${CONFIG.FILENAME_PREFIX}-${String(i).padStart(String(n).length, '0')}.png`
(src/gbd.js lines 119, 124-125). -/
def fname (pfx : String) (n i : Nat) : String :=
  pfx ++ "-" ++ padStart (natToString i) (natToString n).length '0' ++ ".png"

/-- The body of the arrow function mapped over the manifest in the
`downloadJobs` construction (src/gbd.js lines 121-126): `null` (here `none`)
exactly when `signedUrlMap.get(pid)` is falsy, else the job for 0-based
index `i`. -/
def jobAt (pfx : String) (n : Nat) (m : UrlMap) (i : Nat) (pid : String) : Option Job :=
  if jsTruthy (mapGet m pid) then
    some ⟨(mapGet m pid).getD "", fname pfx n (i + 1)⟩
  else none

/-- The `downloadJobs` construction (src/gbd.js lines 119-127): `.map` over
the manifest with its 0-based index, then `.filter(Boolean)`. -/
def buildJobs (pfx : String) (pids : List String) (m : UrlMap) : List Job :=
  (pids.enum.map (fun p => jobAt pfx pids.length m p.1 p.2)).filterMap id

/-- Whether the manifest position `i` (0-based) has a resolved URL: the
mapping holds a truthy value for its identifier — this is the `if (!url)`
guard of the job builder. -/
def resolvedAt (m : UrlMap) (pids : List String) (i : Nat) : Bool :=
  jsTruthy (mapGet m (pids.getD i ""))

/-- Number of manifest positions without a resolved URL (the script reports
`allPids.length - downloadJobs.length`). -/
def unresolvedCount (m : UrlMap) (pids : List String) : Nat :=
  ((List.range pids.length).filter (fun i => !resolvedAt m pids i)).length

/-- Numeric value of a big-endian list of decimal digit values. -/
def bigValueN (l : List Nat) : Nat :=
  l.foldl (fun a d => 10 * a + d) 0

/-- The list `digitsBE n` left-padded with zeros to width `w`: the digit values of
`String(n).padStart(w, '0')`. -/
def paddedDigits (n w : Nat) : List Nat :=
  List.replicate (w - (digitsBE n).length) 0 ++ digitsBE n

/-- Merging a batch into `signedUrlMap`:
`batchMap.forEach((url, pid) => signedUrlMap.set(pid, url))`
(src/gbd.js line 114; the `forEach` callback receives value first, key
second).  `Map.set` writes unconditionally. -/
def mergeBatch (m : UrlMap) (batch : UrlMap) : UrlMap :=
  batch.foldl (fun acc p => mapSet acc p.1 p.2) m

/-- Observable events of the URL-resolution loop of `main` (src/gbd.js
lines 109-116): each manifest position is either skipped (its pid already a
key of `signedUrlMap`) or queried, the query's batch response being merged
into the map. -/
inductive REvent where
  | skip (pid : String) : REvent
  | query (pid : String) (batch : UrlMap) : REvent
deriving DecidableEq, Repr

/-- Trace semantics of the URL-resolution loop of `main` (src/gbd.js lines
109-116).  The batch responses are an arbitrary sequence, indexed by the
number of queries issued so far (`q`): `oracle q` is what
`ApiService.getPageBatch` returns for the `q`-th issued query. -/
def resolveEvents (oracle : Nat → UrlMap) : List String → UrlMap → Nat → List REvent
  | [], _, _ => []
  | pid :: rest, m, q =>
    if hasKey m pid then REvent.skip pid :: resolveEvents oracle rest m q
    else REvent.query pid (oracle q)
      :: resolveEvents oracle rest (mergeBatch m (oracle q)) (q + 1)

/-- Replay the map updates of a trace from an initial map. -/
def replayMap (m : UrlMap) : List REvent → UrlMap
  | [] => m
  | REvent.skip _ :: evts => replayMap m evts
  | REvent.query _ batch :: evts => replayMap (mergeBatch m batch) evts

/-- The identifiers for which the loop issued a batch query, in order. -/
def queriesOf (evts : List REvent) : List String :=
  evts.filterMap (fun e => match e with
    | REvent.query pid _ => some pid
    | REvent.skip _ => none)

/-- Whether every issued query's batch response contains the queried
identifier (in practice the provider returns at least the queried page). -/
def batchesCoverQueries (evts : List REvent) : Bool :=
  evts.all (fun e => match e with
    | REvent.query pid batch => hasKey batch pid
    | REvent.skip _ => true)

/-- The URL-resolution loop of `main` with fallible batch fetches: an error
thrown by `ApiService.getPageBatch` propagates out of the loop to the
surrounding `catch` of `main`. -/
def resolveLoopE (oracle : Nat → Except String UrlMap) :
    List String → UrlMap → Nat → Except String UrlMap
  | [], m, _ => .ok m
  | pid :: rest, m, q =>
    if hasKey m pid then resolveLoopE oracle rest m q
    else
      match oracle q with
      | .error e => .error e
      | .ok batch => resolveLoopE oracle rest (mergeBatch m batch) (q + 1)

/-- The sequential download loop of `main` (src/gbd.js lines 135-146),
processing jobs in order from 0-based index `i`; `outcome i` is whether the
`i`-th download succeeds (`DownloaderService.downloadFile` returning rather
than throwing).  Returns the attempt log — one `(filename, succeeded)` entry
per `downloadFile` call, in call order — and `failedDownloads`. -/
def downloadLoop (outcome : Nat → Bool) : List Job → Nat → List (String × Bool) × List String
  | [], _ => ([], [])
  | j :: rest, i =>
    let r := downloadLoop outcome rest (i + 1)
    ((j.filename, outcome i) :: r.1, if outcome i then r.2 else j.filename :: r.2)

/-- The observable outcome of one run of `main`: the jobs built, the
filenames for which a download was attempted, the filenames saved, the
recorded failures, and whether the summary was reached. -/
structure RunOutcome where
  jobs : List Job
  attempted : List String
  saved : List String
  failed : List String
  summary : Bool
deriving DecidableEq, Repr

/-- The pipeline inside the `try`/`catch` of `main` (src/gbd.js lines
104-158): manifest fetch (its `Except` result passed in), URL resolution,
job building, sequential downloads, then the summary.  A thrown discovery
error lands in the `catch` (line 156): no jobs are built, nothing is
attempted or saved, and no summary is produced. -/
def mainModel (pfx : String) (manifest : Except String (List String))
    (oracle : Nat → Except String UrlMap) (outcome : Nat → Bool) : RunOutcome :=
  match manifest with
  | .error _ => ⟨[], [], [], [], false⟩
  | .ok pids =>
    match resolveLoopE oracle pids [] 0 with
    | .error _ => ⟨[], [], [], [], false⟩
    | .ok m =>
      let jobs := buildJobs pfx pids m
      let r := downloadLoop outcome jobs 0
      ⟨jobs, r.1.map (fun p => p.1),
        (r.1.filter (fun p => p.2)).map (fun p => p.1), r.2, true⟩

/-- The JS whitespace characters (`\s`) in the ASCII range. -/
def isJsSpace (c : Char) : Bool :=
  c = ' ' || c = '\t' || c = '\n' || c = '\r' || c = '\x0b' || c = '\x0c'

/-- Characters removed by the sanitizer (src/gbd.js line 20). -/
def isInvalidFileChar (c : Char) : Bool :=
  c = '\\' || c = '/' || c = ':' || c = '*' || c = '?' || c = '"'
    || c = '<' || c = '>' || c = '|'

/-- The effect of `title.replace(/\s+/g, '-')`: each maximal whitespace run
becomes one hyphen.  `inWs` records whether the previous character was part
of a whitespace run already replaced. -/
def collapseWsAux : Bool → List Char → List Char
  | _, [] => []
  | inWs, c :: rest =>
    if isJsSpace c then
      if inWs then collapseWsAux true rest else '-' :: collapseWsAux true rest
    else c :: collapseWsAux false rest

/-- The sanitisation applied to a found title (src/gbd.js lines 18-20):
whitespace runs to hyphens, then invalid filename characters removed. -/
def sanitizeTitle (t : String) : String :=
  ⟨(collapseWsAux false t.data).filter (fun c => !isInvalidFileChar c)⟩

/-- Embedding of `getFilenamePrefix` (src/gbd.js lines 11-21) as it executes:
`titleText` is the text of `h1.gb-volume-title` when that element exists.
When the element is missing, the function evaluates `Logger.warn(...)`
before its `return 'Book'`; `loggerReady` records whether the
`const Logger` binding is initialized at call time — referencing it earlier
throws a `ReferenceError` (temporal dead zone). -/
def getFilenamePfx (titleText : Option String) (loggerReady : Bool) :
    Except String String :=
  match titleText with
  | none =>
    if loggerReady then .ok "Book"
    else .error "ReferenceError: cannot access Logger before initialization"
  | some t => .ok (sanitizeTitle t)

/-- The `CONFIG.FILENAME_PREFIX` initializer (src/gbd.js line 24): it runs
while `const CONFIG` is being evaluated, before the `const Logger`
declaration (src/gbd.js line 30) has executed. -/
def configFilenamePfx (titleText : Option String) : Except String String :=
  getFilenamePfx titleText false

theorem foldl_addBatchEntry_eq_filter (ps : List PageDesc) :
    ∀ m : UrlMap, ps.foldl addBatchEntry m
      = (ps.filter (fun p => jsTruthy p.src && jsTruthy p.pid)).foldl
          (fun m p => mapSet m (p.pid.getD "") (p.src.getD "")) m := by
  induction ps with
  | nil => intro m; rfl
  | cons p t ih =>
    intro m
    by_cases h : (jsTruthy p.src && jsTruthy p.pid) = true
    · simp [List.foldl_cons, List.filter_cons, h, addBatchEntry, ih]
    · simp [List.foldl_cons, List.filter_cons, h, addBatchEntry, ih]

/-- C6: `getPageManifest` errors exactly on non-OK status, absent page list,
or empty page list; otherwise it returns the pid of each page descriptor in
order. -/
theorem manifest_error_iff (resp : ApiResponse) :
    ((∃ e, getPageManifest resp = .error e) ↔
      (resp.ok = false ∨ resp.page = none ∨ resp.page = some []))
    ∧ (∀ ps, resp.ok = true → resp.page = some ps → ps ≠ [] →
        getPageManifest resp = .ok (ps.map (fun p => p.pid))) := by
  constructor
  · obtain ⟨ok, page⟩ := resp
    cases ok <;> rcases page with _ | (_ | ⟨p, t⟩) <;> simp [getPageManifest]
  · intro ps hok hq hne
    rcases ps with _ | ⟨p, t⟩
    · exact absurd rfl hne
    · simp [getPageManifest, hok, hq]

/-- Witness for C6: a one-descriptor OK response yields its pid list. -/
theorem manifest_error_iff_witness :
    getPageManifest ⟨true, some [⟨some "PA1", none⟩]⟩ = .ok [some "PA1"] :=
  (manifest_error_iff ⟨true, some [⟨some "PA1", none⟩]⟩).2
    [⟨some "PA1", none⟩] rfl rfl (by decide)

/-- C7: `getPageBatch` errors exactly on non-OK status or an entirely absent
page list; a present (possibly empty) list yields the mapping built from the
entries whose identifier and source-URL fields are both truthy — the rest
are ignored. -/
theorem batch_error_iff (resp : ApiResponse) :
    ((∃ e, getPageBatch resp = .error e) ↔ (resp.ok = false ∨ resp.page = none))
    ∧ (∀ ps, resp.ok = true → resp.page = some ps →
        getPageBatch resp = .ok (urlMapOfBatch ps)) := by
  constructor
  · obtain ⟨ok, page⟩ := resp
    cases ok <;> rcases page with _ | ps <;> simp [getPageBatch]
  · intro ps hok hq
    simp [getPageBatch, hok, hq, urlMapOfBatch, foldl_addBatchEntry_eq_filter]

/-- Witness for C7: an OK response with an empty-but-present page list is not
an error and yields the empty mapping, and a response with one complete and
one src-less descriptor yields a one-entry mapping. -/
theorem batch_error_iff_witness :
    getPageBatch ⟨true, some []⟩ = .ok []
    ∧ getPageBatch ⟨true, some [⟨some "PA2", none⟩, ⟨some "PA1", some "u1"⟩]⟩
        = .ok [("PA1", "u1")] :=
  ⟨(batch_error_iff ⟨true, some []⟩).2 [] rfl rfl,
   (batch_error_iff ⟨true, some [⟨some "PA2", none⟩, ⟨some "PA1", some "u1"⟩]⟩).2
     [⟨some "PA2", none⟩, ⟨some "PA1", some "u1"⟩] rfl rfl⟩

/-- C10: a batch entry is inserted into the map exactly when both its `pid`
and `src` fields are truthy; an entry with an absent field, or with a field
present but equal to the empty string, leaves the map unchanged. -/
theorem batch_entry_truthy (m : UrlMap) (p : PageDesc) :
    (∀ k v, p.pid = some k → p.src = some v → k ≠ "" → v ≠ "" →
        addBatchEntry m p = mapSet m k v)
    ∧ ((p.pid = none ∨ p.pid = some "" ∨ p.src = none ∨ p.src = some "") →
        addBatchEntry m p = m) := by
  constructor
  · intro k v hk hv hkne hvne
    simp [addBatchEntry, hk, hv, jsTruthy, hkne, hvne]
  · intro h
    rcases h with h | h | h | h <;>
      simp [addBatchEntry, h, jsTruthy, show (("" : String) != "") = false from rfl]

/-- Witness for C10: a truthy entry is inserted; entries with an empty-string
pid, an empty-string src, or an absent src are skipped. -/
theorem batch_entry_truthy_witness :
    addBatchEntry [] ⟨some "PA1", some "u1"⟩ = [("PA1", "u1")]
    ∧ addBatchEntry [("PA1", "u1")] ⟨some "", some "u2"⟩ = [("PA1", "u1")]
    ∧ addBatchEntry [("PA1", "u1")] ⟨some "PA2", some ""⟩ = [("PA1", "u1")]
    ∧ addBatchEntry [("PA1", "u1")] ⟨some "PA2", none⟩ = [("PA1", "u1")] :=
  ⟨(batch_entry_truthy [] ⟨some "PA1", some "u1"⟩).1 "PA1" "u1" rfl rfl
      (by decide) (by decide),
   (batch_entry_truthy [("PA1", "u1")] ⟨some "", some "u2"⟩).2 (Or.inr (Or.inl rfl)),
   (batch_entry_truthy [("PA1", "u1")] ⟨some "PA2", some ""⟩).2
      (Or.inr (Or.inr (Or.inr rfl))),
   (batch_entry_truthy [("PA1", "u1")] ⟨some "PA2", none⟩).2
      (Or.inr (Or.inr (Or.inl rfl)))⟩

theorem foldl_digit_acc (l : List Nat) :
    ∀ a : Nat, l.foldl (fun x d => 10 * x + d) a
      = a * 10 ^ l.length + l.foldl (fun x d => 10 * x + d) 0 := by
  induction l with
  | nil => intro a; simp
  | cons d t ih =>
    intro a
    simp only [List.foldl_cons, List.length_cons]
    rw [ih (10 * a + d), ih (10 * 0 + d)]
    ring

theorem bigValueN_cons (d : Nat) (t : List Nat) :
    bigValueN (d :: t) = d * 10 ^ t.length + bigValueN t := by
  unfold bigValueN
  simp only [List.foldl_cons]
  rw [foldl_digit_acc t (10 * 0 + d)]
  ring_nf

theorem bigValueN_lt (l : List Nat) (h : ∀ d ∈ l, d < 10) :
    bigValueN l < 10 ^ l.length := by
  induction l with
  | nil => simp [bigValueN]
  | cons d t ih =>
    have hd : d < 10 := h d (List.mem_cons_self d t)
    have ht : bigValueN t < 10 ^ t.length :=
      ih (fun x hx => h x (List.mem_cons_of_mem d hx))
    rw [bigValueN_cons, List.length_cons, pow_succ]
    calc d * 10 ^ t.length + bigValueN t
        < d * 10 ^ t.length + 10 ^ t.length := by omega
      _ = (d + 1) * 10 ^ t.length := by ring
      _ ≤ 10 * 10 ^ t.length := by
          exact Nat.mul_le_mul_right _ (by omega)
      _ = 10 ^ t.length * 10 := by ring

theorem bigValueN_replicate_zero_append (k : Nat) (l : List Nat) :
    bigValueN (List.replicate k 0 ++ l) = bigValueN l := by
  unfold bigValueN
  rw [List.foldl_append]
  congr 1
  induction k with
  | zero => rfl
  | succ n ih => simpa [List.replicate_succ] using ih

theorem foldl_reverse_ofDigits (l : List Nat) :
    ∀ a : Nat, l.reverse.foldl (fun x d => 10 * x + d) a
      = a * 10 ^ l.length + Nat.ofDigits 10 l := by
  induction l with
  | nil => intro a; simp [Nat.ofDigits_nil]
  | cons d t ih =>
    intro a
    rw [List.reverse_cons, List.foldl_append]
    simp only [List.foldl_cons, List.foldl_nil, List.length_cons]
    rw [ih a, Nat.ofDigits_cons]
    ring

theorem digitsBEAux_eq :
    ∀ fuel n, n ≤ fuel → digitsBEAux fuel n = (Nat.digits 10 n).reverse := by
  intro fuel
  induction fuel with
  | zero =>
    intro n hn
    have h0 : n = 0 := by omega
    subst h0
    simp [digitsBEAux]
  | succ fuel ih =>
    intro n hn
    by_cases h : n = 0
    · subst h; simp [digitsBEAux]
    · have hpos : 0 < n := by omega
      have hdiv : n / 10 ≤ fuel := by
        have := Nat.div_lt_self hpos (by norm_num : 1 < 10)
        omega
      show (if n = 0 then [] else digitsBEAux fuel (n / 10) ++ [n % 10]) = _
      rw [if_neg h, ih (n / 10) hdiv, Nat.digits_def' (by norm_num : 1 < 10) hpos,
        List.reverse_cons]

theorem digitsBE_eq (n : Nat) :
    digitsBE n = if n = 0 then [0] else (Nat.digits 10 n).reverse := by
  by_cases h : n = 0
  · subst h; rfl
  · unfold digitsBE
    rw [if_neg h, if_neg h, digitsBEAux_eq n n le_rfl]

theorem bigValueN_digitsBE (n : Nat) : bigValueN (digitsBE n) = n := by
  by_cases h : n = 0
  · subst h; rfl
  · rw [digitsBE_eq, if_neg h]
    unfold bigValueN
    rw [foldl_reverse_ofDigits (Nat.digits 10 n) 0, Nat.ofDigits_digits]
    simp

theorem digitsBE_length_pos (n : Nat) : 1 ≤ (digitsBE n).length := by
  by_cases h : n = 0
  · subst h; simp [digitsBE]
  · rw [digitsBE_eq, if_neg h, List.length_reverse]
    have : Nat.digits 10 n ≠ [] := Nat.digits_ne_nil_iff_ne_zero.mpr h
    exact List.length_pos.mpr this

theorem digitsBE_lt_ten (n : Nat) : ∀ d ∈ digitsBE n, d < 10 := by
  intro d hd
  by_cases h : n = 0
  · subst h; simp [digitsBE] at hd; omega
  · rw [digitsBE_eq, if_neg h, List.mem_reverse] at hd
    exact Nat.digits_lt_base (by norm_num) hd

theorem digitsBE_length_le (n w : Nat) (hw : 1 ≤ w) (hn : n < 10 ^ w) :
    (digitsBE n).length ≤ w := by
  by_cases h : n = 0
  · subst h; simpa [digitsBE] using hw
  · rw [digitsBE_eq, if_neg h, List.length_reverse]
    by_contra hc
    push_neg at hc
    have h1 : 10 ^ (w + 1) ≤ 10 ^ (Nat.digits 10 n).length :=
      Nat.pow_le_pow_right (by norm_num) (by omega)
    have h2 : 10 ^ (Nat.digits 10 n).length ≤ 10 * n :=
      Nat.base_pow_length_digits_le 10 n (by norm_num) h
    have h3 : 10 * 10 ^ w ≤ 10 * n := by
      calc 10 * 10 ^ w = 10 ^ (w + 1) := by ring
        _ ≤ 10 ^ (Nat.digits 10 n).length := h1
        _ ≤ 10 * n := h2
    have h4 : 10 ^ w ≤ n := Nat.le_of_mul_le_mul_left h3 (by norm_num)
    omega

theorem paddedDigits_length (n w : Nat) (h : (digitsBE n).length ≤ w) :
    (paddedDigits n w).length = w := by
  unfold paddedDigits
  rw [List.length_append, List.length_replicate]
  omega

theorem paddedDigits_value (n w : Nat) : bigValueN (paddedDigits n w) = n := by
  unfold paddedDigits
  rw [bigValueN_replicate_zero_append, bigValueN_digitsBE]

theorem paddedDigits_lt_ten (n w : Nat) : ∀ d ∈ paddedDigits n w, d < 10 := by
  intro d hd
  unfold paddedDigits at hd
  rcases List.mem_append.mp hd with h | h
  · have := List.eq_of_mem_replicate h
    omega
  · exact digitsBE_lt_ten n d h

theorem digitChar_lt_digitChar {a b : Nat} (ha : a < 10) (hb : b < 10) (h : a < b) :
    Nat.digitChar a < Nat.digitChar b := by
  interval_cases a <;> interval_cases b <;> decide

theorem lex_of_bigValueN_lt :
    ∀ l1 l2 : List Nat, l1.length = l2.length →
      (∀ d ∈ l1, d < 10) → (∀ d ∈ l2, d < 10) →
      bigValueN l1 < bigValueN l2 →
      List.Lex (· < ·) (l1.map Nat.digitChar) (l2.map Nat.digitChar) := by
  intro l1
  induction l1 with
  | nil =>
    intro l2 hlen _ _ hv
    rcases l2 with _ | ⟨d2, t2⟩
    · exact absurd hv (by simp)
    · simp at hlen
  | cons d1 t1 ih =>
    intro l2 hlen h1 h2 hv
    rcases l2 with _ | ⟨d2, t2⟩
    · simp at hlen
    · have ht : t1.length = t2.length := by simpa using hlen
      have hd1 : d1 < 10 := h1 d1 (List.mem_cons_self d1 t1)
      have hd2 : d2 < 10 := h2 d2 (List.mem_cons_self d2 t2)
      have h1t : ∀ d ∈ t1, d < 10 := fun d hd => h1 d (List.mem_cons_of_mem d1 hd)
      have h2t : ∀ d ∈ t2, d < 10 := fun d hd => h2 d (List.mem_cons_of_mem d2 hd)
      have b1 : bigValueN t1 < 10 ^ t1.length := bigValueN_lt t1 h1t
      have b2 : bigValueN t2 < 10 ^ t2.length := bigValueN_lt t2 h2t
      rw [bigValueN_cons, bigValueN_cons, ht] at hv
      rcases Nat.lt_trichotomy d1 d2 with hlt | heq | hgt
      · exact List.Lex.rel (digitChar_lt_digitChar hd1 hd2 hlt)
      · subst heq
        have hvt : bigValueN t1 < bigValueN t2 := by omega
        exact List.Lex.cons (ih t2 ht h1t h2t hvt)
      · exfalso
        have hge : (d2 + 1) * 10 ^ t2.length ≤ d1 * 10 ^ t2.length :=
          Nat.mul_le_mul_right _ (by omega)
        have : d2 * 10 ^ t2.length + bigValueN t2 < d1 * 10 ^ t2.length := by
          calc d2 * 10 ^ t2.length + bigValueN t2
              < d2 * 10 ^ t2.length + 10 ^ t2.length := by omega
            _ = (d2 + 1) * 10 ^ t2.length := by ring
            _ ≤ d1 * 10 ^ t2.length := hge
        omega

theorem lex_append_right {s1 s2 : List Char} :
    ∀ {l1 l2 : List Char}, List.Lex (· < ·) l1 l2 → l1.length = l2.length →
      List.Lex (· < ·) (l1 ++ s1) (l2 ++ s2) := by
  intro l1 l2 h
  induction h with
  | nil => intro hlen; simp at hlen
  | cons h ih =>
    intro hlen
    exact List.Lex.cons (ih (by simpa using hlen))
  | rel h => intro _; exact List.Lex.rel h

theorem lex_append_left (p : List Char) {l1 l2 : List Char}
    (h : List.Lex (· < ·) l1 l2) :
    List.Lex (· < ·) (p ++ l1) (p ++ l2) := by
  induction p with
  | nil => simpa
  | cons c t ih => exact List.Lex.cons ih

theorem natToString_length (n : Nat) :
    (natToString n).length = (digitsBE n).length := by
  unfold natToString
  simp [String.length]

theorem padStart_natToString_data (n w : Nat) :
    (padStart (natToString n) w '0').data = (paddedDigits n w).map Nat.digitChar := by
  unfold padStart natToString paddedDigits
  simp only [List.map_append, List.map_replicate, List.length_map]
  rfl

theorem padded_lex (x y w : Nat) (hw : 1 ≤ w) (hx : x < 10 ^ w) (hy : y < 10 ^ w)
    (hxy : x < y) :
    List.Lex (· < ·) (padStart (natToString x) w '0').data
      (padStart (natToString y) w '0').data := by
  rw [padStart_natToString_data, padStart_natToString_data]
  apply lex_of_bigValueN_lt
  · rw [paddedDigits_length x w (digitsBE_length_le x w hw hx),
      paddedDigits_length y w (digitsBE_length_le y w hw hy)]
  · exact paddedDigits_lt_ten x w
  · exact paddedDigits_lt_ten y w
  · rw [paddedDigits_value, paddedDigits_value]; exact hxy

theorem padStart_data_length (n w : Nat) (h : (digitsBE n).length ≤ w) :
    (padStart (natToString n) w '0').data.length = w := by
  rw [padStart_natToString_data, List.length_map]
  exact paddedDigits_length n w h

theorem fname_lt (pfx : String) (n x y : Nat) (hxy : x < y) (hy : y ≤ n) :
    fname pfx n x < fname pfx n y := by
  have hn : n ≠ 0 := by omega
  have hw : 1 ≤ (digitsBE n).length := digitsBE_length_pos n
  have hnw : n < 10 ^ (digitsBE n).length := by
    have := bigValueN_lt (digitsBE n) (digitsBE_lt_ten n)
    rwa [bigValueN_digitsBE] at this
  have hxw : x < 10 ^ (digitsBE n).length := by omega
  have hyw : y < 10 ^ (digitsBE n).length := by omega
  rw [String.lt_iff_toList_lt]
  show List.Lex (· < ·) (fname pfx n x).data (fname pfx n y).data
  unfold fname
  rw [natToString_length]
  simp only [String.data_append, List.append_assoc]
  apply lex_append_left
  apply lex_append_left
  apply lex_append_right (padded_lex x y (digitsBE n).length hw hxw hyw hxy)
  rw [padStart_data_length x _ (digitsBE_length_le x _ hw hxw),
    padStart_data_length y _ (digitsBE_length_le y _ hw hyw)]

theorem step_filterMap_enumFrom {α β : Type} (d : α) (step : Nat → α → Option β) :
    ∀ (l : List α) (k : Nat),
      (List.enumFrom k l).filterMap (fun p => step p.1 p.2)
        = (List.range' k l.length).filterMap (fun i => step i (l.getD (i - k) d)) := by
  intro l
  induction l with
  | nil => intro k; rfl
  | cons a t ih =>
    intro k
    have hcongr :
        (List.range' (k + 1) t.length).filterMap
            (fun i => step i (t.getD (i - (k + 1)) d))
          = (List.range' (k + 1) t.length).filterMap
              (fun i => step i ((a :: t).getD (i - k) d)) := by
      apply List.filterMap_congr
      intro i hi
      have hk : k + 1 ≤ i := (List.mem_range'_1.mp hi).1
      have hik : i - k = (i - (k + 1)) + 1 := by omega
      rw [hik, List.getD_cons_succ]
    show List.filterMap _ ((k, a) :: List.enumFrom (k + 1) t)
        = List.filterMap _ (List.range' k (t.length + 1))
    rw [List.range'_succ, List.filterMap_cons, List.filterMap_cons]
    have ha : (a :: t).getD (k - k) d = a := by simp
    simp only [ha, ih (k + 1), hcongr]

theorem filterMap_ite_eq_filter_map {α β : Type} (p : α → Bool) (f : α → β) :
    ∀ l : List α,
      l.filterMap (fun a => if p a then some (f a) else none) = (l.filter p).map f := by
  intro l
  induction l with
  | nil => rfl
  | cons a t ih =>
    by_cases h : p a <;> simp [List.filterMap_cons, List.filter_cons, h, ih]

theorem length_filter_add_length_filter_not {α : Type} (p : α → Bool) :
    ∀ l : List α, (l.filter p).length + (l.filter (fun a => !p a)).length = l.length := by
  intro l
  induction l with
  | nil => rfl
  | cons a t ih =>
    by_cases h : p a <;> simp [List.filter_cons, h] <;> omega

theorem buildJobs_eq (pfx : String) (pids : List String) (m : UrlMap) :
    buildJobs pfx pids m
      = ((List.range pids.length).filter (fun i => resolvedAt m pids i)).map
          (fun i => ⟨(mapGet m (pids.getD i "")).getD "", fname pfx pids.length (i + 1)⟩) := by
  unfold buildJobs
  rw [List.filterMap_map]
  show List.filterMap (fun p => jobAt pfx pids.length m p.1 p.2) (List.enumFrom 0 pids) = _
  rw [step_filterMap_enumFrom "" (fun i pid => jobAt pfx pids.length m i pid) pids 0]
  rw [← List.range_eq_range']
  have hmid : (List.range pids.length).filterMap
        (fun i => jobAt pfx pids.length m i (pids.getD (i - 0) ""))
      = (List.range pids.length).filterMap
          (fun i => if resolvedAt m pids i then
              some (⟨(mapGet m (pids.getD i "")).getD "",
                fname pfx pids.length (i + 1)⟩ : Job)
            else none) := by
    apply List.filterMap_congr
    intro i _
    simp [jobAt, resolvedAt]
  rw [hmid, filterMap_ite_eq_filter_map]

theorem buildJobs_length_add (pfx : String) (pids : List String) (m : UrlMap) :
    (buildJobs pfx pids m).length + unresolvedCount m pids = pids.length := by
  rw [buildJobs_eq, List.length_map]
  unfold unresolvedCount
  have h := length_filter_add_length_filter_not
    (fun i => resolvedAt m pids i) (List.range pids.length)
  rw [List.length_range] at h
  exact h

theorem buildJobs_pairwise (pfx : String) (pids : List String) (m : UrlMap) :
    List.Pairwise (fun j1 j2 : Job => j1.filename < j2.filename)
      (buildJobs pfx pids m) := by
  rw [buildJobs_eq, List.pairwise_map]
  have hp : List.Pairwise (· < ·)
      ((List.range pids.length).filter (fun i => resolvedAt m pids i)) :=
    (List.pairwise_lt_range pids.length).filter _
  apply List.Pairwise.imp_of_mem _ hp
  intro a b _ hb hab
  have hbN : b < pids.length := List.mem_range.mp (List.mem_filter.mp hb).1
  exact fname_lt pfx pids.length (a + 1) (b + 1) (by omega) (by omega)

/-- C1: the job builder emits exactly one job per manifest position with a
resolved URL, in manifest order, with filename
`prefix-(i zero-padded to the digit width of the manifest length).png`;
positions without a resolved URL are dropped, so jobs plus unresolved
positions add up to the manifest length; and the emitted filename list is
strictly increasing lexicographically, so lexicographic filename order
coincides with numeric position order. -/
theorem jobBuilder_spec (pfx : String) (pids : List String) (m : UrlMap) :
    buildJobs pfx pids m
      = ((List.range pids.length).filter (fun i => resolvedAt m pids i)).map
          (fun i => ⟨(mapGet m (pids.getD i "")).getD "", fname pfx pids.length (i + 1)⟩)
    ∧ (buildJobs pfx pids m).length + unresolvedCount m pids = pids.length
    ∧ List.Pairwise (fun j1 j2 : Job => j1.filename < j2.filename)
        (buildJobs pfx pids m) :=
  ⟨buildJobs_eq pfx pids m, buildJobs_length_add pfx pids m,
    buildJobs_pairwise pfx pids m⟩

/-- C8: a manifest containing the same identifier at two distinct positions
`i < j`, with a resolved URL for that identifier, yields two separate jobs
sharing that URL but with distinct position-derived filenames. -/
theorem duplicate_manifest_positions (pfx : String) (pids : List String) (m : UrlMap)
    (i j : Nat) (hij : i < j) (hj : j < pids.length)
    (hdup : pids.getD i "" = pids.getD j "") (hres : resolvedAt m pids i = true) :
    ∃ u, mapGet m (pids.getD i "") = some u
      ∧ (⟨u, fname pfx pids.length (i + 1)⟩ : Job) ∈ buildJobs pfx pids m
      ∧ (⟨u, fname pfx pids.length (j + 1)⟩ : Job) ∈ buildJobs pfx pids m
      ∧ fname pfx pids.length (i + 1) ≠ fname pfx pids.length (j + 1) := by
  have hresj : resolvedAt m pids j = true := by
    unfold resolvedAt at hres ⊢
    rw [← hdup]
    exact hres
  obtain ⟨u, hu⟩ : ∃ u, mapGet m (pids.getD i "") = some u := by
    unfold resolvedAt at hres
    cases hmg : mapGet m (pids.getD i "") with
    | none => rw [hmg] at hres; simp [jsTruthy] at hres
    | some u => exact ⟨u, rfl⟩
  refine ⟨u, hu, ?_, ?_, ?_⟩
  · rw [buildJobs_eq]
    apply List.mem_map.mpr
    refine ⟨i, List.mem_filter.mpr ⟨List.mem_range.mpr (by omega), hres⟩, ?_⟩
    rw [hu]
    rfl
  · rw [buildJobs_eq]
    apply List.mem_map.mpr
    refine ⟨j, List.mem_filter.mpr ⟨List.mem_range.mpr hj, hresj⟩, ?_⟩
    rw [← hdup, hu]
    rfl
  · exact ne_of_lt (fname_lt pfx pids.length (i + 1) (j + 1) (by omega) (by omega))

/-- Witness for C8: the two-entry manifest `["a", "a"]` with `"a"` resolved
to `"u"` yields both `⟨u, X-1.png⟩` and `⟨u, X-2.png⟩`. -/
theorem duplicate_manifest_positions_witness :
    ∃ u, mapGet [("a", "u")] ((["a", "a"] : List String).getD 0 "") = some u
      ∧ (⟨u, fname "X" (["a", "a"] : List String).length (0 + 1)⟩ : Job)
          ∈ buildJobs "X" ["a", "a"] [("a", "u")]
      ∧ (⟨u, fname "X" (["a", "a"] : List String).length (1 + 1)⟩ : Job)
          ∈ buildJobs "X" ["a", "a"] [("a", "u")]
      ∧ fname "X" (["a", "a"] : List String).length (0 + 1)
          ≠ fname "X" (["a", "a"] : List String).length (1 + 1) :=
  duplicate_manifest_positions "X" ["a", "a"] [("a", "u")] 0 1 (by omega) (by decide)
    (by decide) (by decide)

example : buildJobs "X" ["p1", "p2", "p3"] [("p1", "u1"), ("p2", "u2"), ("p3", "u3")]
    = [⟨"u1", "X-1.png"⟩, ⟨"u2", "X-2.png"⟩, ⟨"u3", "X-3.png"⟩] := by decide

example : fname "X" 12 1 = "X-01.png" := by decide

example : fname "X" 150 2 = "X-002.png" := by decide

example : buildJobs "X" ["p1", "p2"] [("p1", "u1")] = [⟨"u1", "X-1.png"⟩]
    ∧ unresolvedCount [("p1", "u1")] ["p1", "p2"] = 1 := by decide

theorem mapGet_mapSet (m : UrlMap) (k v key : String) :
    mapGet (mapSet m k v) key = if k = key then some v else mapGet m key := by
  induction m with
  | nil => rfl
  | cons p t ih =>
    obtain ⟨a, b⟩ := p
    by_cases h1 : a = k
    · subst h1
      by_cases h2 : a = key <;> simp [mapSet, mapGet, h2]
    · by_cases h2 : a = key
      · subst h2
        have h3 : ¬ k = a := fun hk => h1 hk.symm
        simp [mapSet, mapGet, h1, h3]
      · simp [mapSet, mapGet, h1, h2, ih]

theorem mapGet_append (l1 l2 : UrlMap) (key : String) :
    mapGet (l1 ++ l2) key
      = match mapGet l1 key with
        | some v => some v
        | none => mapGet l2 key := by
  induction l1 with
  | nil => rfl
  | cons p t ih =>
    obtain ⟨a, b⟩ := p
    by_cases h : a = key <;> simp [mapGet, h, ih]

theorem mergeBatch_lookup (b : UrlMap) :
    ∀ (m : UrlMap) (key : String),
      mapGet (mergeBatch m b) key
        = match mapGet b.reverse key with
          | some v => some v
          | none => mapGet m key := by
  induction b with
  | nil => intro m key; rfl
  | cons p t ih =>
    intro m key
    obtain ⟨a, v⟩ := p
    show mapGet (mergeBatch (mapSet m a v) t) key = _
    rw [ih (mapSet m a v) key, List.reverse_cons, mapGet_append]
    by_cases h : a = key
    · cases hm : mapGet t.reverse key <;> simp [hm, mapGet, h, mapGet_mapSet]
    · cases hm : mapGet t.reverse key <;> simp [hm, mapGet, h, mapGet_mapSet]

theorem hasKey_eq_any (l : UrlMap) (key : String) :
    hasKey l key = l.any (fun p => p.1 == key) := by
  induction l with
  | nil => rfl
  | cons p t ih =>
    obtain ⟨a, b⟩ := p
    by_cases h : a = key <;> simp [hasKey, mapGet, h, ← ih]

theorem hasKey_reverse (l : UrlMap) (key : String) :
    hasKey l.reverse key = hasKey l key := by
  rw [hasKey_eq_any, hasKey_eq_any, List.any_reverse]

theorem hasKey_mergeBatch_left (m b : UrlMap) (key : String)
    (h : hasKey m key = true) : hasKey (mergeBatch m b) key = true := by
  unfold hasKey at h ⊢
  rw [mergeBatch_lookup]
  cases hm : mapGet b.reverse key <;> simp [hm, h]

theorem hasKey_mergeBatch_batch (m b : UrlMap) (key : String)
    (h : hasKey b key = true) : hasKey (mergeBatch m b) key = true := by
  have hb : hasKey b.reverse key = true := by rw [hasKey_reverse]; exact h
  unfold hasKey at hb ⊢
  rw [mergeBatch_lookup]
  cases hm : mapGet b.reverse key
  · rw [hm] at hb; simp at hb
  · simp [hm]

theorem no_query_when_present (oracle : Nat → UrlMap) :
    ∀ (pids : List String) (m : UrlMap) (q k : Nat) (pid : String) (batch : UrlMap),
      (resolveEvents oracle pids m q)[k]? = some (REvent.query pid batch) →
      hasKey (replayMap m ((resolveEvents oracle pids m q).take k)) pid = false := by
  intro pids
  induction pids with
  | nil =>
    intro m q k pid batch h
    simp [resolveEvents] at h
  | cons p rest ih =>
    intro m q k pid batch h
    by_cases hk : hasKey m p = true
    · rw [show resolveEvents oracle (p :: rest) m q
          = REvent.skip p :: resolveEvents oracle rest m q from by
            simp [resolveEvents, hk]] at h ⊢
      cases k with
      | zero => simp at h
      | succ k' =>
        rw [List.getElem?_cons_succ] at h
        rw [List.take_succ_cons]
        exact ih m q k' pid batch h
    · rw [show resolveEvents oracle (p :: rest) m q
          = REvent.query p (oracle q)
            :: resolveEvents oracle rest (mergeBatch m (oracle q)) (q + 1) from by
            simp [resolveEvents, hk]] at h ⊢
      cases k with
      | zero =>
        rw [List.getElem?_cons_zero] at h
        simp only [Option.some.injEq, REvent.query.injEq] at h
        obtain ⟨h1, _⟩ := h
        subst h1
        simpa [List.take_zero, replayMap] using hk
      | succ k' =>
        rw [List.getElem?_cons_succ] at h
        rw [List.take_succ_cons]
        exact ih (mergeBatch m (oracle q)) (q + 1) k' pid batch h

theorem not_mem_queries_of_present (oracle : Nat → UrlMap) :
    ∀ (pids : List String) (m : UrlMap) (q : Nat) (key : String),
      hasKey m key = true → key ∉ queriesOf (resolveEvents oracle pids m q) := by
  intro pids
  induction pids with
  | nil =>
    intro m q key _
    simp [resolveEvents, queriesOf]
  | cons p rest ih =>
    intro m q key h
    by_cases hk : hasKey m p = true
    · rw [show resolveEvents oracle (p :: rest) m q
          = REvent.skip p :: resolveEvents oracle rest m q from by
            simp [resolveEvents, hk]]
      simpa [queriesOf, List.filterMap_cons] using ih m q key h
    · rw [show resolveEvents oracle (p :: rest) m q
          = REvent.query p (oracle q)
            :: resolveEvents oracle rest (mergeBatch m (oracle q)) (q + 1) from by
            simp [resolveEvents, hk]]
      simp only [queriesOf, List.filterMap_cons, List.mem_cons, not_or]
      constructor
      · intro heq
        exact hk (heq ▸ h)
      · have h2 : hasKey (mergeBatch m (oracle q)) key = true :=
          hasKey_mergeBatch_left m (oracle q) key h
        simpa [queriesOf] using ih (mergeBatch m (oracle q)) (q + 1) key h2

theorem queries_nodup_of_cover (oracle : Nat → UrlMap) :
    ∀ (pids : List String) (m : UrlMap) (q : Nat),
      batchesCoverQueries (resolveEvents oracle pids m q) = true →
      (queriesOf (resolveEvents oracle pids m q)).Nodup := by
  intro pids
  induction pids with
  | nil =>
    intro m q _
    simp [resolveEvents, queriesOf]
  | cons p rest ih =>
    intro m q hcov
    by_cases hk : hasKey m p = true
    · rw [show resolveEvents oracle (p :: rest) m q
          = REvent.skip p :: resolveEvents oracle rest m q from by
            simp [resolveEvents, hk]] at hcov ⊢
      simp only [batchesCoverQueries, List.all_cons, Bool.and_eq_true] at hcov
      simpa [queriesOf, List.filterMap_cons] using ih m q hcov.2
    · rw [show resolveEvents oracle (p :: rest) m q
          = REvent.query p (oracle q)
            :: resolveEvents oracle rest (mergeBatch m (oracle q)) (q + 1) from by
            simp [resolveEvents, hk]] at hcov ⊢
      simp only [batchesCoverQueries, List.all_cons, Bool.and_eq_true] at hcov
      obtain ⟨hc1, hc2⟩ := hcov
      simp only [queriesOf, List.filterMap_cons, List.nodup_cons]
      constructor
      · have hkey : hasKey (mergeBatch m (oracle q)) p = true :=
          hasKey_mergeBatch_batch m (oracle q) p hc1
        exact not_mem_queries_of_present oracle rest (mergeBatch m (oracle q)) (q + 1) p hkey
      · exact ih (mergeBatch m (oracle q)) (q + 1) hc2

/-- Counterexample to C2 as stated: with manifest `["a", "a"]` and batch
responses that never contain the queried identifier (legitimate per C7: an
empty-but-present page list yields an empty mapping), the identifier `"a"`
is queried twice — more than one query for one distinct unresolved
identifier. -/
theorem duplicate_unresolved_queried_twice :
    (queriesOf (resolveEvents (fun _ => []) ["a", "a"] [] 0)).count "a" = 2 := by
  decide

/-- C2 amended: (1) the driving loop never issues a query for an identifier
that is already a key of the URL mapping when that position is visited —
for every manifest and every sequence of batch responses; (2) provided
every issued query's batch response contains the queried identifier, at
most one query is issued per distinct identifier (the query list has no
duplicates). -/
theorem resolver_skip_spec (oracle : Nat → UrlMap) (pids : List String) :
    (∀ k pid batch,
        (resolveEvents oracle pids [] 0)[k]? = some (REvent.query pid batch) →
        hasKey (replayMap [] ((resolveEvents oracle pids [] 0).take k)) pid = false)
    ∧ (batchesCoverQueries (resolveEvents oracle pids [] 0) = true →
        (queriesOf (resolveEvents oracle pids [] 0)).Nodup) :=
  ⟨fun k pid batch h => no_query_when_present oracle pids [] 0 k pid batch h,
   fun h => queries_nodup_of_cover oracle pids [] 0 h⟩

/-- Witness for C2: on manifest `["a", "b", "a"]` with a batch resolving
both `"a"` and `"b"` at once, the single issued query targeted a key absent
from the (then empty) mapping, and no identifier is queried twice. -/
theorem resolver_skip_spec_witness :
    hasKey (replayMap []
        ((resolveEvents (fun _ => [("a", "u1"), ("b", "u2")])
          ["a", "b", "a"] [] 0).take 0)) "a" = false
    ∧ (queriesOf (resolveEvents (fun _ => [("a", "u1"), ("b", "u2")])
        ["a", "b", "a"] [] 0)).Nodup :=
  ⟨(resolver_skip_spec (fun _ => [("a", "u1"), ("b", "u2")]) ["a", "b", "a"]).1
      0 "a" [("a", "u1"), ("b", "u2")] (by decide),
   (resolver_skip_spec (fun _ => [("a", "u1"), ("b", "u2")]) ["a", "b", "a"]).2
      (by decide)⟩

/-- Counterexample to C3 as stated: `"a"` is first resolved to `"u1"`; the
batch answering the query for `"b"` also contains `"a" ↦ "u3"`, and the
merge overwrites — the mapping afterwards holds `"u3"`, not the
first-resolved `"u1"`. -/
theorem first_resolution_overwritten :
    mapGet (replayMap []
      (resolveEvents
        (fun q => if q = 0 then [("a", "u1")] else [("b", "u2"), ("a", "u3")])
        ["a", "b"] [] 0)) "a" = some "u3" := by
  decide

/-- C3 amended: a batch merge `Map.set`s every binding of the batch
unconditionally, so afterwards an identifier contained in the batch holds
the batch's (last) value for it — the most recent resolution wins — while
identifiers absent from the batch keep their previous value. -/
theorem batch_merge_overwrites (m b : UrlMap) (key : String) :
    mapGet (mergeBatch m b) key
      = match mapGet b.reverse key with
        | some v => some v
        | none => mapGet m key :=
  mergeBatch_lookup b m key

theorem downloadLoop_log (outcome : Nat → Bool) :
    ∀ (jobs : List Job) (i : Nat),
      (downloadLoop outcome jobs i).1.map (fun p => p.1) = jobs.map Job.filename := by
  intro jobs
  induction jobs with
  | nil => intro i; rfl
  | cons j rest ih => intro i; simp [downloadLoop, ih (i + 1)]

theorem downloadLoop_failed_eq (outcome : Nat → Bool) :
    ∀ (jobs : List Job) (i : Nat),
      (downloadLoop outcome jobs i).2
        = (List.enumFrom i jobs).filterMap
            (fun p => if outcome p.1 then none else some p.2.filename) := by
  intro jobs
  induction jobs with
  | nil => intro i; rfl
  | cons j rest ih =>
    intro i
    by_cases h : outcome i = true <;>
      simp [downloadLoop, List.filterMap_cons, h, ih (i + 1)]

/-- C4: the sequential retriever attempts every job, in order, regardless
of which jobs fail; a failing job is recorded in the failure list by its
filename (and does not stop later jobs, which appear in the same attempt
log); and the summary's success count (jobs minus failures, as the script
computes it) plus the recorded failures equals the number of jobs. -/
theorem retriever_spec (outcome : Nat → Bool) (jobs : List Job) :
    (downloadLoop outcome jobs 0).1.map (fun p => p.1) = jobs.map Job.filename
    ∧ (downloadLoop outcome jobs 0).2
        = ((List.range jobs.length).filter (fun i => !outcome i)).map
            (fun i => (jobs.getD i ⟨"", ""⟩).filename)
    ∧ jobs.length - (downloadLoop outcome jobs 0).2.length
        + (downloadLoop outcome jobs 0).2.length = jobs.length := by
  have h2 : (downloadLoop outcome jobs 0).2
      = ((List.range jobs.length).filter (fun i => !outcome i)).map
          (fun i => (jobs.getD i ⟨"", ""⟩).filename) := by
    rw [downloadLoop_failed_eq]
    show (List.enumFrom 0 jobs).filterMap
        (fun p => (fun i j => if outcome i then none else some (Job.filename j)) p.1 p.2) = _
    rw [step_filterMap_enumFrom (⟨"", ""⟩ : Job)
      (fun i j => if outcome i then none else some (Job.filename j)) jobs 0]
    rw [← List.range_eq_range']
    have hmid : (List.range jobs.length).filterMap
          (fun i => if outcome i then none
            else some (Job.filename (jobs.getD (i - 0) ⟨"", ""⟩)))
        = (List.range jobs.length).filterMap
            (fun i => if !outcome i then some ((jobs.getD i ⟨"", ""⟩).filename)
              else none) := by
      apply List.filterMap_congr
      intro i _
      by_cases h : outcome i = true <;> simp [h]
    rw [hmid, filterMap_ite_eq_filter_map]
  refine ⟨downloadLoop_log outcome jobs 0, h2, ?_⟩
  have hle : (downloadLoop outcome jobs 0).2.length ≤ jobs.length := by
    rw [h2, List.length_map]
    calc ((List.range jobs.length).filter (fun i => !outcome i)).length
        ≤ (List.range jobs.length).length := List.length_filter_le _ _
      _ = jobs.length := List.length_range _
  omega

/-- C5: a discovery error — from the manifest fetch, or from any URL batch
fetch during the resolution loop — aborts the run: no jobs built, no
retrieval attempted, nothing saved, no summary. -/
theorem discovery_error_aborts (pfx : String) (manifest : Except String (List String))
    (oracle : Nat → Except String UrlMap) (outcome : Nat → Bool)
    (h : (∃ e, manifest = .error e)
      ∨ ∃ pids, manifest = .ok pids ∧ ∃ e, resolveLoopE oracle pids [] 0 = .error e) :
    mainModel pfx manifest oracle outcome = ⟨[], [], [], [], false⟩ := by
  rcases h with ⟨e, he⟩ | ⟨pids, hp, e, he⟩
  · rw [he]; rfl
  · rw [hp]
    simp [mainModel, he]

/-- Witness for C5: an HTTP-500 manifest fetch aborts; so does a failing
batch fetch on a one-page manifest. -/
theorem discovery_error_aborts_witness :
    mainModel "X" (.error "HTTP 500") (fun _ => .ok []) (fun _ => true)
      = ⟨[], [], [], [], false⟩
    ∧ mainModel "X" (.ok ["a"]) (fun _ => .error "HTTP 500") (fun _ => true)
      = ⟨[], [], [], [], false⟩ :=
  ⟨discovery_error_aborts "X" (.error "HTTP 500") (fun _ => .ok []) (fun _ => true)
      (Or.inl ⟨"HTTP 500", rfl⟩),
   discovery_error_aborts "X" (.ok ["a"]) (fun _ => .error "HTTP 500") (fun _ => true)
      (Or.inr ⟨["a"], rfl, "HTTP 500", rfl⟩)⟩

/-- C9 (code bug): when the title element is missing, the
`CONFIG.FILENAME_PREFIX` initializer does not return `'Book'` — it throws,
because `getFilenamePrefix` evaluates `Logger.warn(...)` while the
`const Logger` binding (declared after `CONFIG`) is still in its temporal
dead zone.  Had `Logger` been initialized, the fallback would be `'Book'`;
with the title present, the sanitized title is returned and no crash
occurs. -/
theorem fallback_crashes_in_tdz :
    configFilenamePfx none
        = .error "ReferenceError: cannot access Logger before initialization"
    ∧ getFilenamePfx none true = .ok "Book"
    ∧ ∀ t, configFilenamePfx (some t) = .ok (sanitizeTitle t) :=
  ⟨rfl, rfl, fun _ => rfl⟩

end GBD
